import Mathlib

/-!
Verification of the photography-assistant analysis pipeline.

The development shallowly embeds the two algorithmic cores of the
repository:

* the server-side handler in src/backend/main.go: transport decoding
  (prefix stripping and base64 validation), extraction of a JSON payload
  from the raw model reply (first brace to last brace), unmarshalling of
  the payload into the response record, and score clamping;
* the client-side image normalizer calculateTargetSize in the image
  processing module.

Go strings are modelled as List Char (byte-level operations here only act
on ASCII characters), Go ints as Int, JSON values as an inductive type,
and JavaScript number arithmetic of the normalizer as exact rational
arithmetic with explicit rounding.
-/

/-- JSON values, as seen by the Go json package after lexing.  Numbers are
kept exact as rationals so that integral and fractional numbers can be
distinguished the way encoding/json does. -/
inductive Json where
  | null : Json
  | bool : Bool → Json
  | num : ℚ → Json
  | str : String → Json
  | arr : List Json → Json
  | obj : List (String × Json) → Json

/-- The response record of src/backend/main.go (struct AnalysisResponse,
lines 27-34), with the JSON tag names of its fields.  There is no intent
field: the struct only has score, composition, lighting, subject,
strengths and suggestions. -/
structure AnalysisResponse where
  score : Int
  composition : String
  lighting : String
  subject : String
  strengths : List String
  suggestions : List String
deriving DecidableEq, Repr

/-- The zero value of AnalysisResponse: what a fresh Go struct holds
before json.Unmarshal fills any field. -/
def emptyAnalysis : AnalysisResponse :=
  { score := 0, composition := "", lighting := "", subject := "",
    strengths := [], suggestions := [] }

/-- Go unmarshalling of a JSON array into []string: every element must be
a string (null yields the zero value ""). -/
def strList : List Json → Except String (List String)
  | [] => Except.ok []
  | Json.str s :: rest => (strList rest).map (fun l => s :: l)
  | Json.null :: rest => (strList rest).map (fun l => "" :: l)
  | _ => Except.error ("cannot unmarshal element into string")

/-- ASCII case folding of a character code, used for case-insensitive
key matching. -/
def lowerCharNat (c : Char) : Nat :=
  if 65 ≤ c.toNat ∧ c.toNat ≤ 90 then c.toNat + 32 else c.toNat

/-- Case-insensitive match of an incoming JSON object key against a
struct tag, as Go json.Unmarshal performs it (the tags here are plain
ASCII, so ASCII folding coincides with Go folding). -/
def keyMatches (k tag : String) : Bool :=
  k.toList.map lowerCharNat = tag.toList.map lowerCharNat

/-- Processing of one incoming object key by Go json.Unmarshal into the
AnalysisResponse struct: the key is matched case-insensitively against
the JSON tags, a null value leaves the field untouched, a value of the
wrong type is an unmarshalling error, and unknown keys (such as intent)
are ignored. -/
def applyField (a : AnalysisResponse) (k : String) (v : Json) :
    Except String AnalysisResponse :=
  if keyMatches k ("score") then
    match v with
    | Json.null => Except.ok a
    | Json.num q =>
        if q.den = 1 then Except.ok { a with score := q.num }
        else Except.error ("cannot unmarshal fractional number into int")
    | _ => Except.error ("cannot unmarshal value into int")
  else if keyMatches k ("composition") then
    match v with
    | Json.null => Except.ok a
    | Json.str s => Except.ok { a with composition := s }
    | _ => Except.error ("cannot unmarshal value into string")
  else if keyMatches k ("lighting") then
    match v with
    | Json.null => Except.ok a
    | Json.str s => Except.ok { a with lighting := s }
    | _ => Except.error ("cannot unmarshal value into string")
  else if keyMatches k ("subject") then
    match v with
    | Json.null => Except.ok a
    | Json.str s => Except.ok { a with subject := s }
    | _ => Except.error ("cannot unmarshal value into string")
  else if keyMatches k ("strengths") then
    match v with
    | Json.null => Except.ok a
    | Json.arr xs => (strList xs).map (fun l => { a with strengths := l })
    | _ => Except.error ("cannot unmarshal value into slice")
  else if keyMatches k ("suggestions") then
    match v with
    | Json.null => Except.ok a
    | Json.arr xs => (strList xs).map (fun l => { a with suggestions := l })
    | _ => Except.error ("cannot unmarshal value into slice")
  else
    Except.ok a

/-- json.Unmarshal of a JSON value into AnalysisResponse: a JSON object
is folded key by key over the zero struct (later duplicate keys
overwrite earlier ones, as in Go); JSON null leaves the zero struct; any
other top-level value is an error. -/
def unmarshalAnalysis : Json → Except String AnalysisResponse
  | Json.obj entries =>
      entries.foldlM (fun a kv => applyField a kv.1 kv.2) emptyAnalysis
  | Json.null => Except.ok emptyAnalysis
  | _ => Except.error ("cannot unmarshal value into AnalysisResponse")

/-- Score clamping of src/backend/main.go lines 206-211. -/
def clampScore (n : Int) : Int :=
  if n < 1 then 1 else if n > 10 then 10 else n

/-- The validation step applied to a parsed analysis before it is
returned. -/
def validateScore (a : AnalysisResponse) : AnalysisResponse :=
  { a with score := clampScore a.score }

/-- Parse-and-validate stage of analyzeImageWithBedrock: unmarshal the
extracted payload, then clamp the score. -/
def analyzeParsed (j : Json) : Except String AnalysisResponse :=
  (unmarshalAnalysis j).map validateScore

/-- strings.Split on the comma separator, modelled on character lists. -/
def splitComma : List Char → List (List Char)
  | [] => [[]]
  | c :: rest =>
      if c = ',' then [] :: splitComma rest
      else
        match splitComma rest with
        | [] => [[c]]
        | p :: ps => (c :: p) :: ps

/-- Prefix stripping of src/backend/main.go lines 62-69: when the encoded
image contains a comma, the string is split on commas and the second
field becomes the image data. -/
def cleanImageData (s : List Char) : List Char :=
  if s.contains ',' then
    match splitComma s with
    | _ :: p :: _ => p
    | _ => s
  else s

/-- Value of a character in the standard base64 alphabet. -/
def b64Index (c : Char) : Option Nat :=
  if 'A' ≤ c ∧ c ≤ 'Z' then some (c.toNat - 65)
  else if 'a' ≤ c ∧ c ≤ 'z' then some (c.toNat - 97 + 26)
  else if '0' ≤ c ∧ c ≤ '9' then some (c.toNat - 48 + 52)
  else if c = '+' then some 62
  else if c = '/' then some 63
  else none

/-- Standard (padded) base64 decoding by 4-character quanta, as in Go
base64.StdEncoding: the input length must be a multiple of four and
padding may only close the final quantum. -/
def decodeB64Groups : List Char → Option (List Nat)
  | [] => some []
  | a :: b :: c :: d :: rest =>
      match b64Index a, b64Index b with
      | some va, some vb =>
          if c = '=' then
            if d = '=' ∧ rest = [] then some [va * 4 + vb / 16] else none
          else
            match b64Index c with
            | some vc =>
                if d = '=' then
                  if rest = [] then
                    some [va * 4 + vb / 16, (vb % 16) * 16 + vc / 4]
                  else none
                else
                  match b64Index d, decodeB64Groups rest with
                  | some vd, some tail =>
                      some ([va * 4 + vb / 16, (vb % 16) * 16 + vc / 4,
                             (vc % 4) * 64 + vd] ++ tail)
                  | _, _ => none
            | none => none
      | _, _ => none
  | _ => none

/-- Go base64.StdEncoding.DecodeString: newline characters are skipped
anywhere in the input, then the remainder is decoded in 4-character
quanta. -/
def decodeImage (s : List Char) : Option (List Nat) :=
  decodeB64Groups (s.filter (fun c => ¬ (c = '\n' ∨ c = '\r')))

/-- Outcome of the request handler before any inference call: either an
HTTP 400 response, or the call into analyzeImageWithBedrock with the
cleaned image data.  Reaching the inference service is only possible
through the invoke constructor. -/
inductive HandlerResult where
  | badRequest (msg : String) : HandlerResult
  | invoke (imageData : List Char) : HandlerResult
deriving DecidableEq

/-- The validation part of analyzeImageHandler (src/backend/main.go lines
48-84).  An absent image field binds to the empty string (Go zero
value); an empty field is rejected; the prefix is stripped; data that
fails base64 validation is rejected; otherwise the pipeline proceeds to
the inference call with the cleaned data. -/
def analyzeImageHandler (image : Option (List Char)) : HandlerResult :=
  let img := image.getD []
  if img = [] then HandlerResult.badRequest ("Image data is required")
  else
    let imageData := cleanImageData img
    match decodeImage imageData with
    | none => HandlerResult.badRequest ("Invalid image data")
    | some _ => HandlerResult.invoke imageData

/-- strings.Index for a single character: first index or -1. -/
def goIndex (s : List Char) (c : Char) : Int :=
  match s.findIdx? (fun x => x = c) with
  | some i => (i : Int)
  | none => -1

/-- Index of the last occurrence of a character, if any. -/
def lastIdx (s : List Char) (c : Char) : Option Nat :=
  match s.reverse.findIdx? (fun x => x = c) with
  | some i => some (s.length - 1 - i)
  | none => none

/-- strings.LastIndex for a single character: last index or -1. -/
def goLastIndex (s : List Char) (c : Char) : Int :=
  match lastIdx s c with
  | some i => (i : Int)
  | none => -1

/-- Payload extraction of analyzeImageWithBedrock (src/backend/main.go
lines 189-197): take the substring from the first opening brace to the
last closing brace inclusive; fail when the first brace is absent or the
exclusive end does not lie strictly beyond the start. -/
def extractJson (s : List Char) : Except String (List Char) :=
  let jsonStart := goIndex s '\x7b'
  let jsonEnd := goLastIndex s '\x7d' + 1
  if jsonStart = -1 ∨ jsonEnd ≤ jsonStart then
    Except.error ("no valid JSON found in response")
  else
    Except.ok ((s.drop jsonStart.toNat).take (jsonEnd - jsonStart).toNat)

/-- JavaScript Math.round for the values arising here: round half up. -/
def jsRound (x : ℚ) : Int := ⌊x + 1 / 2⌋

/-- calculateTargetSize of the image processing module (lines 40-68):
aspect-ratio preserving fit into the preset bounds, landscape fitting
width first and portrait fitting height first, with both final
dimensions rounded to the nearest integer. -/
def calculateTargetSize (originalWidth originalHeight maxWidth maxHeight : ℚ) :
    Int × Int :=
  let aspect := originalWidth / originalHeight
  if 1 < aspect then
    let width := min maxWidth originalWidth
    let height := width / aspect
    if maxHeight < height then
      (jsRound (maxHeight * aspect), jsRound maxHeight)
    else
      (jsRound width, jsRound height)
  else
    let height := min maxHeight originalHeight
    let width := height * aspect
    if maxWidth < width then
      (jsRound maxWidth, jsRound (maxWidth / aspect))
    else
      (jsRound width, jsRound height)

/-! ## Helper lemmas -/

theorem clampScore_mem (n : Int) : 1 ≤ clampScore n ∧ clampScore n ≤ 10 := by
  unfold clampScore
  split_ifs <;> omega

theorem analyzeParsed_ok (j : Json) (a : AnalysisResponse)
    (h : analyzeParsed j = Except.ok a) :
    ∃ a0, unmarshalAnalysis j = Except.ok a0 ∧ a = validateScore a0 := by
  unfold analyzeParsed at h
  cases hu : unmarshalAnalysis j with
  | error e => rw [hu] at h; simp [Except.map] at h
  | ok a0 =>
      rw [hu] at h
      simp [Except.map] at h
      exact ⟨a0, rfl, h.symm⟩

/-! ## Claim theorems -/

/-- Claim C4: whenever the parse-and-validate stage returns an analysis
record successfully, its score lies in the interval from 1 to 10; a
parsed score of -3 becomes 1, a parsed score of 42 becomes 10, and a
score already in range is returned unchanged. -/
theorem score_in_range :
    (∀ (j : Json) (a : AnalysisResponse), analyzeParsed j = Except.ok a →
        1 ≤ a.score ∧ a.score ≤ 10) ∧
    clampScore (-3) = 1 ∧ clampScore 42 = 10 ∧
    (∀ n : Int, 1 ≤ n → n ≤ 10 → clampScore n = n) := by
  refine ⟨?_, rfl, rfl, ?_⟩
  · intro j a h
    obtain ⟨a0, _, hval⟩ := analyzeParsed_ok j a h
    rw [hval]
    exact clampScore_mem a0.score
  · intro n h1 h2
    unfold clampScore
    split_ifs <;> omega

/-- Witness for claim C4: a parsed payload with score 42 is clamped to
10, which lies in range. -/
theorem score_in_range_witness :
    1 ≤ (AnalysisResponse.mk 10 "" "" "" [] []).score ∧
    (AnalysisResponse.mk 10 "" "" "" [] []).score ≤ 10 :=
  score_in_range.1 (Json.obj [(("score"), Json.num 42)]) _ rfl

/-- Claim C10: the normalizer does not guarantee positive output
dimensions: a 10000 by 1 source under the balanced preset bounds 512 by
384 rounds to a target height of 0. -/
theorem targetSize_zero_dimension :
    calculateTargetSize 10000 1 512 384 = (512, 0) := by
  norm_num [calculateTargetSize, jsRound]

/-- Claim C9: a non-empty image field that ends in the separator, such
as "meta,", passes the emptiness and decoding checks (the stripped
payload is the empty string, which decodes to zero bytes), so the
handler proceeds to the inference call with empty image data. -/
theorem handler_accepts_trailing_separator :
    analyzeImageHandler (some ("meta,".toList)) = HandlerResult.invoke [] ∧
    decodeImage [] = some [] :=
  ⟨rfl, rfl⟩

theorem exceptBind_ok {α β : Type} (x : α) (f : α → Except String β) :
    (Except.ok x >>= f) = f x := rfl

theorem exceptBind_error {α β : Type} (e : String) (f : α → Except String β) :
    ((Except.error e : Except String α) >>= f) = Except.error e := rfl

theorem exceptMap_error {α β : Type} (e : String) (f : α → β) :
    (Except.error e : Except String α).map f = Except.error e := rfl

theorem applyField_score_bad (a : AnalysisResponse) (v : Json)
    (hnum : ∀ q : ℚ, v ≠ Json.num q) (hnull : v ≠ Json.null) :
    applyField a ("score") v = Except.error ("cannot unmarshal value into int") := by
  unfold applyField
  cases v with
  | null => exact absurd rfl hnull
  | num q => exact absurd rfl (hnum q)
  | bool b => rfl
  | str s => rfl
  | arr l => rfl
  | obj o => rfl

theorem applyField_nonscore_score (k : String) (v : Json) (a a1 : AnalysisResponse)
    (hk : keyMatches k ("score") = false)
    (h : applyField a k v = Except.ok a1) : a1.score = a.score := by
  unfold applyField at h
  rw [hk] at h
  simp only [Bool.false_eq_true, if_false] at h
  cases v with
  | null => split_ifs at h <;> (injection h with h2; rw [← h2])
  | bool b =>
      split_ifs at h <;>
        first
          | exact Except.noConfusion h
          | (injection h with h2; rw [← h2])
  | num q =>
      split_ifs at h <;>
        first
          | exact Except.noConfusion h
          | (injection h with h2; rw [← h2])
  | str s =>
      split_ifs at h <;>
        first
          | exact Except.noConfusion h
          | (injection h with h2; rw [← h2])
  | obj o =>
      split_ifs at h <;>
        first
          | exact Except.noConfusion h
          | (injection h with h2; rw [← h2])
  | arr xs =>
      split_ifs at h <;>
        first
          | exact Except.noConfusion h
          | (injection h with h2; rw [← h2])
          | (dsimp only at h;
             cases hsl : strList xs with
             | error e => rw [hsl] at h; exact Except.noConfusion h
             | ok l => rw [hsl] at h; injection h with h2; rw [← h2])

theorem fold_score_preserved (entries : List (String × Json)) :
    ∀ a0 a : AnalysisResponse,
    (∀ kv ∈ entries, keyMatches kv.1 ("score") = false) →
    entries.foldlM (fun a kv => applyField a kv.1 kv.2) a0 = Except.ok a →
    a.score = a0.score := by
  induction entries with
  | nil =>
      intro a0 a _ h
      rw [List.foldlM_nil] at h
      injection h with h2
      rw [h2]
  | cons kv rest ih =>
      intro a0 a hks h
      rw [List.foldlM_cons] at h
      cases hap : applyField a0 kv.1 kv.2 with
      | error e => rw [hap] at h; exact Except.noConfusion h
      | ok a1 =>
          rw [hap, exceptBind_ok] at h
          have h1 : a1.score = a0.score :=
            applyField_nonscore_score kv.1 kv.2 a0 a1
              (hks kv (List.mem_cons_self kv rest)) hap
          have h2 := ih a1 a (fun x hx => hks x (List.mem_cons_of_mem kv hx)) h
          rw [h2, h1]

/-- Counterexample to claim C1: a parsed payload with no score field at
all is not rejected with an error: unmarshalling leaves the Go zero
value 0, validation clamps it to 1, and a full record is returned to the
caller. -/
theorem missingScore_returns_ok :
    analyzeParsed (Json.obj [(("composition"), Json.str ("nice"))]) =
      Except.ok (AnalysisResponse.mk 1 "nice" "" "" [] []) := rfl

/-- Claim C1 (amended): a score field holding a non-numeric, non-null
value makes unmarshalling fail, and no record is returned; but a payload
with no score field is not rejected: the score is defaulted to the zero
value and clamped to 1 in the returned record. -/
theorem score_nonnumeric_fatal_missing_defaulted :
    (∀ (pre post : List (String × Json)) (v : Json) (a : AnalysisResponse),
        unmarshalAnalysis (Json.obj pre) = Except.ok a →
        (∀ q : ℚ, v ≠ Json.num q) → v ≠ Json.null →
        ∃ e, analyzeParsed (Json.obj (pre ++ (("score"), v) :: post)) =
          Except.error e) ∧
    (∀ (entries : List (String × Json)) (a : AnalysisResponse),
        (∀ kv ∈ entries, keyMatches kv.1 ("score") = false) →
        analyzeParsed (Json.obj entries) = Except.ok a → a.score = 1) := by
  constructor
  · intro pre post v a hpre hnum hnull
    refine ⟨("cannot unmarshal value into int"), ?_⟩
    unfold unmarshalAnalysis at hpre
    dsimp only at hpre
    unfold analyzeParsed unmarshalAnalysis
    dsimp only
    rw [List.foldlM_append, hpre, exceptBind_ok, List.foldlM_cons]
    dsimp only
    rw [applyField_score_bad a v hnum hnull, exceptBind_error, exceptMap_error]
  · intro entries a hks h
    obtain ⟨a0, hu, hval⟩ := analyzeParsed_ok _ _ h
    unfold unmarshalAnalysis at hu
    have hsc := fold_score_preserved entries emptyAnalysis a0 hks hu
    rw [hval]
    show clampScore a0.score = 1
    rw [hsc]
    rfl

/-- Witness for claim C1: a payload whose score is the string "twelve"
is rejected with an unmarshalling error. -/
theorem score_nonnumeric_fatal_witness :
    ∃ e, analyzeParsed (Json.obj [(("score"), Json.str ("twelve"))]) =
      Except.error e :=
  score_nonnumeric_fatal_missing_defaulted.1 [] [] (Json.str ("twelve"))
    emptyAnalysis rfl (fun q hq => Json.noConfusion hq)
    (fun hn => Json.noConfusion hn)

/-- Claim C8: a request whose image field is absent, empty, or whose
prefix-stripped payload fails base64 validation is answered with an HTTP
400 response; the inference service is not invoked, since reaching it
requires the invoke outcome. -/
theorem handler_rejects_bad_input (image : Option (List Char))
    (h : image = none ∨ image = some [] ∨
         decodeImage (cleanImageData (image.getD [])) = none) :
    ∃ m, analyzeImageHandler image = HandlerResult.badRequest m := by
  rcases h with h | h | h
  · exact ⟨("Image data is required"), by rw [h]; rfl⟩
  · exact ⟨("Image data is required"), by rw [h]; rfl⟩
  · by_cases himg : image.getD [] = []
    · refine ⟨("Image data is required"), ?_⟩
      unfold analyzeImageHandler
      rw [if_pos himg]
    · refine ⟨("Invalid image data"), ?_⟩
      unfold analyzeImageHandler
      rw [if_neg himg]
      dsimp only
      rw [h]

/-- Witness for claim C8: an image field consisting of characters
outside the base64 alphabet is answered with a 400 response. -/
theorem handler_rejects_bad_input_witness :
    ∃ m, analyzeImageHandler (some ("!!!!".toList)) =
      HandlerResult.badRequest m :=
  handler_rejects_bad_input (some ("!!!!".toList)) (Or.inr (Or.inr rfl))

theorem exceptMap_ok {α β : Type} (x : α) (f : α → β) :
    (Except.ok x : Except String α).map f = Except.ok (f x) := rfl

theorem splitComma_ne_nil (s : List Char) : splitComma s ≠ [] := by
  cases s with
  | nil => simp [splitComma]
  | cons c rest =>
      simp only [splitComma]
      split_ifs
      · simp
      · cases h : splitComma rest <;> simp

theorem splitComma_head (b : List Char) :
    ∃ tl, splitComma b = b.takeWhile (fun c => c ≠ ',') :: tl := by
  induction b with
  | nil => exact ⟨[], rfl⟩
  | cons c rest ih =>
      by_cases hc : c = ','
      · subst hc
        refine ⟨splitComma rest, ?_⟩
        simp [splitComma, List.takeWhile_cons]
      · obtain ⟨tl, htl⟩ := ih
        refine ⟨tl, ?_⟩
        simp [splitComma, hc, htl, List.takeWhile_cons]

theorem splitComma_append (a b : List Char) (h : (',' : Char) ∉ a) :
    splitComma (a ++ ',' :: b) = a :: splitComma b := by
  induction a with
  | nil => simp [splitComma]
  | cons c rest ih =>
      have hc : c ≠ ',' := fun hx => h (hx ▸ List.mem_cons_self c rest)
      have hrest : (',' : Char) ∉ rest := fun hx => h (List.mem_cons_of_mem c hx)
      simp only [List.cons_append, splitComma, if_neg hc, List.append_eq, ih hrest]

/-- Counterexample to claim C2: for the encoded payload "QUJD,RUZH",
which itself contains a further separator, decoding "meta,QUJD,RUZH"
keeps only the segment "QUJD" before the second separator, so it yields
different bytes from decoding the bare payload. -/
theorem prefix_strip_counterexample :
    cleanImageData ("meta,QUJD,RUZH".toList) = ("QUJD".toList) ∧
    cleanImageData ("meta,QUJD,RUZH".toList) ≠ ("QUJD,RUZH".toList) ∧
    decodeImage (cleanImageData ("meta,QUJD,RUZH".toList)) = some [65, 66, 67] ∧
    decodeImage (cleanImageData ("QUJD,RUZH".toList)) = some [69, 70, 71] ∧
    decodeImage (cleanImageData ("meta,QUJD,RUZH".toList)) ≠
      decodeImage (cleanImageData ("QUJD,RUZH".toList)) := by
  refine ⟨rfl, ?_, rfl, rfl, ?_⟩
  · decide
  · decide

/-- Claim C2 (amended): when the encoded string contains a separator,
decoding takes the segment strictly between the first separator and any
second separator as the payload (the second comma-separated field):
everything from a second separator on is dropped, so only payloads free
of further separators are recovered whole.  A string with no separator
is treated entirely as payload. -/
theorem cleanImageData_amended :
    (∀ a b : List Char, (',' : Char) ∉ a →
        cleanImageData (a ++ ',' :: b) = b.takeWhile (fun c => c ≠ ',')) ∧
    (∀ s : List Char, (',' : Char) ∉ s → cleanImageData s = s) := by
  constructor
  · intro a b ha
    unfold cleanImageData
    have hmem : (',' : Char) ∈ a ++ ',' :: b :=
      List.mem_append_right a (List.mem_cons_self ',' b)
    have hcontains : (a ++ ',' :: b).contains ',' = true := List.elem_iff.mpr hmem
    rw [hcontains]
    simp only [if_true]
    rw [splitComma_append a b ha]
    obtain ⟨tl, htl⟩ := splitComma_head b
    rw [htl]
  · intro s hs
    unfold cleanImageData
    have hcontains : s.contains ',' = false := by
      cases hco : s.contains ',' with
      | false => rfl
      | true => exact absurd (List.elem_iff.mp hco) hs
    rw [hcontains]
    simp only [Bool.false_eq_true, if_false]

/-- Witness for claim C2 (amended): stripping a data-URI style prefix
from a separator-free payload recovers the payload. -/
theorem cleanImageData_amended_witness :
    cleanImageData (("data:image/jpeg;base64".toList) ++ ',' :: ("QUJD".toList)) =
      ("QUJD".toList).takeWhile (fun c => c ≠ ',') :=
  cleanImageData_amended.1 ("data:image/jpeg;base64".toList) ("QUJD".toList)
    (by decide)

theorem strList_map (l : List String) :
    strList (l.map Json.str) = Except.ok l := by
  induction l with
  | nil => rfl
  | cons s rest ih => simp [strList, ih, exceptMap_ok]

/-- Counterexample to claim C3: two payloads that differ only in their
intent value produce identical records, so the returned record does not
contain an intent field taken from the payload: intent is discarded by
unmarshalling. -/
theorem intent_not_retained :
    analyzeParsed (Json.obj
        [(("score"), Json.num 7), (("intent"), Json.str ("mood"))]) =
      analyzeParsed (Json.obj
        [(("score"), Json.num 7), (("intent"), Json.str ("story"))]) ∧
    analyzeParsed (Json.obj
        [(("score"), Json.num 7), (("intent"), Json.str ("mood"))]) =
      Except.ok (AnalysisResponse.mk 7 "" "" "" [] []) :=
  ⟨rfl, rfl⟩

/-- Claim C3 (amended): a successfully extracted and validated payload
yields a record holding the score, composition, lighting, subject,
strengths and suggestions taken from the payload; the payload's intent
value is ignored and is not part of the record, which has no intent
field. -/
theorem record_fields_no_intent (q : ℚ) (hq : q.den = 1)
    (i c l s : String) (strs suggs : List String) :
    analyzeParsed (Json.obj
      [(("score"), Json.num q), (("intent"), Json.str i),
       (("composition"), Json.str c), (("lighting"), Json.str l),
       (("subject"), Json.str s),
       (("strengths"), Json.arr (strs.map Json.str)),
       (("suggestions"), Json.arr (suggs.map Json.str))]) =
    Except.ok (AnalysisResponse.mk (clampScore q.num) c l s strs suggs) := by
  have h1 : applyField emptyAnalysis ("score") (Json.num q) =
      Except.ok (AnalysisResponse.mk q.num "" "" "" [] []) := by
    have hdef : applyField emptyAnalysis ("score") (Json.num q) =
        if q.den = 1 then Except.ok (AnalysisResponse.mk q.num "" "" "" [] [])
        else Except.error ("cannot unmarshal fractional number into int") := rfl
    rw [hdef, if_pos hq]
  have h2 : ∀ (a : AnalysisResponse) (v : String),
      applyField a ("intent") (Json.str v) = Except.ok a := fun a v => rfl
  have h3 : ∀ (a : AnalysisResponse) (v : String),
      applyField a ("composition") (Json.str v) =
        Except.ok { a with composition := v } := fun a v => rfl
  have h4 : ∀ (a : AnalysisResponse) (v : String),
      applyField a ("lighting") (Json.str v) =
        Except.ok { a with lighting := v } := fun a v => rfl
  have h5 : ∀ (a : AnalysisResponse) (v : String),
      applyField a ("subject") (Json.str v) =
        Except.ok { a with subject := v } := fun a v => rfl
  have h6 : ∀ (a : AnalysisResponse) (xs : List Json),
      applyField a ("strengths") (Json.arr xs) =
        (strList xs).map (fun w => { a with strengths := w }) := fun a xs => rfl
  have h7 : ∀ (a : AnalysisResponse) (xs : List Json),
      applyField a ("suggestions") (Json.arr xs) =
        (strList xs).map (fun w => { a with suggestions := w }) := fun a xs => rfl
  unfold analyzeParsed unmarshalAnalysis
  dsimp only
  simp only [List.foldlM_cons, List.foldlM_nil, h1, h2, h3, h4, h5, h6, h7,
    strList_map, exceptMap_ok, exceptBind_ok]
  rfl

/-- Witness for claim C3 (amended): a concrete full payload produces the
record with its six fields, with the intent value dropped. -/
theorem record_fields_no_intent_witness :
    analyzeParsed (Json.obj
      [(("score"), Json.num 9), (("intent"), Json.str ("a guess")),
       (("composition"), Json.str ("framed")), (("lighting"), Json.str ("soft")),
       (("subject"), Json.str ("clear")),
       (("strengths"), Json.arr ((["good"] : List String).map Json.str)),
       (("suggestions"), Json.arr ((["closer"] : List String).map Json.str))]) =
    Except.ok (AnalysisResponse.mk (clampScore (9 : ℚ).num) "framed" "soft"
      "clear" ["good"] ["closer"]) :=
  record_fields_no_intent 9 rfl ("a guess") ("framed") ("soft") ("clear")
    ["good"] ["closer"]

theorem findIdxP_some (p : Char → Bool) :
    ∀ (s : List Char) (i : ℕ), s.findIdx? p = some i →
      ∃ h : i < s.length, p (s.get ⟨i, h⟩) = true := by
  intro s
  induction s with
  | nil =>
      intro i h
      rw [List.findIdx?_nil] at h
      exact Option.noConfusion h
  | cons c rest ih =>
      intro i h
      rw [List.findIdx?_cons] at h
      by_cases hp : p c = true
      · rw [if_pos hp] at h
        injection h with h2
        subst h2
        exact ⟨Nat.succ_pos rest.length, hp⟩
      · rw [if_neg hp, List.findIdx?_succ] at h
        cases hr : rest.findIdx? p with
        | none => rw [hr] at h; exact Option.noConfusion h
        | some i0 =>
            rw [hr] at h
            injection h with h2
            subst h2
            obtain ⟨hlt, hpget⟩ := ih i0 hr
            exact ⟨Nat.succ_lt_succ hlt, by rw [List.get_cons_succ]; exact hpget⟩

theorem lastIdx_some (s : List Char) (c : Char) (j : ℕ)
    (h : lastIdx s c = some j) :
    ∃ hj : j < s.length, s.get ⟨j, hj⟩ = c := by
  unfold lastIdx at h
  cases hr : s.reverse.findIdx? (fun x => x = c) with
  | none => rw [hr] at h; exact Option.noConfusion h
  | some i =>
      rw [hr] at h
      injection h with h2
      subst h2
      obtain ⟨hlt0, hpget⟩ := findIdxP_some (fun x => x = c) s.reverse i hr
      have hlt : i < s.length := by
        have hcopy := hlt0
        rwa [List.length_reverse] at hcopy
      have hget : s.reverse.get ⟨i, hlt0⟩ = c := of_decide_eq_true hpget
      rw [List.get_eq_getElem, List.getElem_reverse] at hget
      refine ⟨by omega, ?_⟩
      rw [List.get_eq_getElem]
      simpa using hget

theorem goIndex_cases (s : List Char) (c : Char) :
    goIndex s c = -1 ∨ 0 ≤ goIndex s c := by
  unfold goIndex
  cases h : s.findIdx? (fun x => x = c) with
  | none => exact Or.inl rfl
  | some i => exact Or.inr (by positivity)

/-- Claim C5: extraction takes the substring from the first opening
brace through the last closing brace inclusive and returns it for
parsing; when either brace is absent, or the last closing brace does not
fall after the first opening brace, extraction fails.  In particular the
example reply yields exactly its embedded payload, and a brace-free
reply fails. -/
theorem extractJson_spec :
    (∀ (s : List Char) (i j : ℕ),
        s.findIdx? (fun x => x = '\x7b') = some i →
        lastIdx s '\x7d' = some j → i < j →
        extractJson s = Except.ok ((s.drop i).take (j + 1 - i))) ∧
    (∀ s : List Char, ('\x7b' ∉ s ∨ '\x7d' ∉ s) →
        ∃ e, extractJson s = Except.error e) ∧
    (∀ (s : List Char) (i j : ℕ),
        s.findIdx? (fun x => x = '\x7b') = some i →
        lastIdx s '\x7d' = some j → j ≤ i →
        ∃ e, extractJson s = Except.error e) ∧
    extractJson ("Here you go: \x7b\"score\":12\x7d Thanks!".toList) =
      Except.ok ("\x7b\"score\":12\x7d".toList) ∧
    (∃ e, extractJson ("no braces at all".toList) = Except.error e) := by
  refine ⟨?_, ?_, ?_, rfl, ⟨("no valid JSON found in response"), rfl⟩⟩
  · intro s i j hfirst hlast hij
    unfold extractJson goIndex goLastIndex
    rw [hfirst, hlast]
    dsimp only
    have hcond : ¬((i : Int) = -1 ∨ (j : Int) + 1 ≤ (i : Int)) := by
      push_neg
      constructor
      · omega
      · push_cast; omega
    rw [if_neg hcond]
    have e1 : ((i : Int)).toNat = i := by omega
    have e2 : (((j : Int) + 1 - (i : Int))).toNat = j + 1 - i := by omega
    rw [e1, e2]
  · intro s habs
    rcases habs with habs | habs
    · have h1 : s.findIdx? (fun x => x = '\x7b') = none :=
        List.findIdx?_eq_none_iff.mpr
          (fun x hx => decide_eq_false (fun he => habs (he ▸ hx)))
      refine ⟨("no valid JSON found in response"), ?_⟩
      unfold extractJson goIndex
      rw [h1]
      dsimp only
      rw [if_pos (Or.inl rfl)]
    · have h2 : s.reverse.findIdx? (fun x => x = '\x7d') = none :=
        List.findIdx?_eq_none_iff.mpr
          (fun x hx => decide_eq_false
            (fun he => habs (he ▸ (List.mem_reverse.mp hx))))
      refine ⟨("no valid JSON found in response"), ?_⟩
      unfold extractJson goLastIndex lastIdx
      rw [h2]
      dsimp only
      rcases goIndex_cases s '\x7b' with hg | hg
      · rw [if_pos (Or.inl hg)]
      · rw [if_pos (Or.inr (by omega))]
  · intro s i j hfirst hlast hij
    rcases Nat.lt_or_ge j i with hlt | hge
    · refine ⟨("no valid JSON found in response"), ?_⟩
      unfold extractJson goIndex goLastIndex
      rw [hfirst, hlast]
      dsimp only
      rw [if_pos (Or.inr (by push_cast; omega))]
    · exfalso
      have hji : j = i := by omega
      subst hji
      obtain ⟨hlt1, hp1⟩ := findIdxP_some (fun x => x = '\x7b') s j hfirst
      obtain ⟨hlt2, hp2⟩ := lastIdx_some s '\x7d' j hlast
      have hb1 : s.get ⟨j, hlt1⟩ = '\x7b' := of_decide_eq_true hp1
      have hb2 : s.get ⟨j, hlt1⟩ = '\x7d' := hp2
      exact absurd (hb1.symm.trans hb2) (by decide)

/-- Witness for claim C5: in the reply "a{b}c" the first opening brace
sits at index 1, the last closing brace at index 3, and extraction
returns exactly the bracketed substring. -/
theorem extractJson_spec_witness :
    extractJson ("a\x7bb\x7dc".toList) =
      Except.ok ((("a\x7bb\x7dc".toList).drop 1).take (3 + 1 - 1)) :=
  extractJson_spec.1 ("a\x7bb\x7dc".toList) 1 3 rfl rfl (by omega)

theorem jsRound_le_nat (x : ℚ) (m : ℕ) (h : x ≤ m) : jsRound x ≤ m := by
  unfold jsRound
  have h3 : ⌊x + 1 / 2⌋ < (m : ℤ) + 1 := Int.floor_lt.mpr (by push_cast; linarith)
  omega

theorem jsRound_natCast (n : ℕ) : jsRound (n : ℚ) = n := by
  unfold jsRound
  rw [show ((n : ℚ) + 1 / 2) = ((n : ℤ) : ℚ) + 1 / 2 by push_cast; ring]
  rw [Int.floor_int_add]
  norm_num

theorem abs_jsRound_sub (x : ℚ) : |((jsRound x : ℤ) : ℚ) - x| ≤ 1 / 2 := by
  unfold jsRound
  have h1 : ((⌊x + 1 / 2⌋ : ℤ) : ℚ) ≤ x + 1 / 2 := Int.floor_le _
  have h2 : x + 1 / 2 < ((⌊x + 1 / 2⌋ : ℤ) : ℚ) + 1 := Int.lt_floor_add_one _
  rw [abs_le]
  constructor <;> linarith

/-- Claim C6: for every source image with positive integer dimensions
and positive preset bounds, both rounded target dimensions stay within
the preset bounds, and before rounding the computed pair has exactly the
original aspect ratio, so each rounded dimension is within half a pixel
of an exact-ratio value. -/
theorem targetSize_bounds_aspect (ow oh mw mh : ℕ)
    (how : 0 < ow) (hoh : 0 < oh) (hmw : 0 < mw) (hmh : 0 < mh) :
    ((calculateTargetSize ow oh mw mh).1 ≤ (mw : ℤ) ∧
     (calculateTargetSize ow oh mw mh).2 ≤ (mh : ℤ)) ∧
    ∃ w h : ℚ, 0 < h ∧ w / h = (ow : ℚ) / (oh : ℚ) ∧
      |(((calculateTargetSize ow oh mw mh).1 : ℤ) : ℚ) - w| ≤ 1 / 2 ∧
      |(((calculateTargetSize ow oh mw mh).2 : ℤ) : ℚ) - h| ≤ 1 / 2 := by
  have how2 : (0 : ℚ) < ow := by exact_mod_cast how
  have hoh2 : (0 : ℚ) < oh := by exact_mod_cast hoh
  have hmw2 : (0 : ℚ) < mw := by exact_mod_cast hmw
  have hmh2 : (0 : ℚ) < mh := by exact_mod_cast hmh
  have hrpos : 0 < (ow : ℚ) / (oh : ℚ) := div_pos how2 hoh2
  unfold calculateTargetSize
  dsimp only
  split_ifs with h1 h2
  · refine ⟨⟨?_, ?_⟩, (mh : ℚ) * ((ow : ℚ) / (oh : ℚ)), (mh : ℚ), hmh2, ?_, ?_, ?_⟩
    · have hlt : (mh : ℚ) * ((ow : ℚ) / (oh : ℚ)) < min (mw : ℚ) (ow : ℚ) :=
        (lt_div_iff₀ hrpos).mp h2
      exact jsRound_le_nat _ mw (le_of_lt (lt_of_lt_of_le hlt (min_le_left _ _)))
    · rw [jsRound_natCast]
    · exact mul_div_cancel_left₀ _ (ne_of_gt hmh2)
    · exact abs_jsRound_sub _
    · exact abs_jsRound_sub _
  · refine ⟨⟨?_, ?_⟩, min (mw : ℚ) (ow : ℚ),
      min (mw : ℚ) (ow : ℚ) / ((ow : ℚ) / (oh : ℚ)), ?_, ?_, ?_, ?_⟩
    · exact jsRound_le_nat _ mw (min_le_left _ _)
    · exact jsRound_le_nat _ mh (not_lt.mp h2)
    · exact div_pos (lt_min hmw2 how2) hrpos
    · rw [div_div_eq_mul_div]
      exact mul_div_cancel_left₀ _ (ne_of_gt (lt_min hmw2 how2))
    · exact abs_jsRound_sub _
    · exact abs_jsRound_sub _
  · rename_i h2
    refine ⟨⟨?_, ?_⟩, (mw : ℚ), (mw : ℚ) / ((ow : ℚ) / (oh : ℚ)),
      div_pos hmw2 hrpos, ?_, ?_, ?_⟩
    · rw [jsRound_natCast]
    · have hlt : (mw : ℚ) / ((ow : ℚ) / (oh : ℚ)) < min (mh : ℚ) (oh : ℚ) :=
        (div_lt_iff₀ hrpos).mpr h2
      exact jsRound_le_nat _ mh (le_of_lt (lt_of_lt_of_le hlt (min_le_left _ _)))
    · rw [div_div_eq_mul_div]
      exact mul_div_cancel_left₀ _ (ne_of_gt hmw2)
    · exact abs_jsRound_sub _
    · exact abs_jsRound_sub _
  · rename_i h2
    refine ⟨⟨?_, ?_⟩, min (mh : ℚ) (oh : ℚ) * ((ow : ℚ) / (oh : ℚ)),
      min (mh : ℚ) (oh : ℚ), lt_min hmh2 hoh2, ?_, ?_, ?_⟩
    · exact jsRound_le_nat _ mw (not_lt.mp h2)
    · exact jsRound_le_nat _ mh (min_le_left _ _)
    · exact mul_div_cancel_left₀ _ (ne_of_gt (lt_min hmh2 hoh2))
    · exact abs_jsRound_sub _
    · exact abs_jsRound_sub _

/-- Witness for claim C6: a 3000 by 2000 source under the balanced
preset bounds 512 by 384 satisfies the bound and aspect properties. -/
theorem targetSize_bounds_aspect_witness :
    ((calculateTargetSize ((3000 : ℕ) : ℚ) ((2000 : ℕ) : ℚ) ((512 : ℕ) : ℚ)
        ((384 : ℕ) : ℚ)).1 ≤ ((512 : ℕ) : ℤ) ∧
     (calculateTargetSize ((3000 : ℕ) : ℚ) ((2000 : ℕ) : ℚ) ((512 : ℕ) : ℚ)
        ((384 : ℕ) : ℚ)).2 ≤ ((384 : ℕ) : ℤ)) ∧
    ∃ w h : ℚ, 0 < h ∧ w / h = ((3000 : ℕ) : ℚ) / ((2000 : ℕ) : ℚ) ∧
      |(((calculateTargetSize ((3000 : ℕ) : ℚ) ((2000 : ℕ) : ℚ) ((512 : ℕ) : ℚ)
          ((384 : ℕ) : ℚ)).1 : ℤ) : ℚ) - w| ≤ 1 / 2 ∧
      |(((calculateTargetSize ((3000 : ℕ) : ℚ) ((2000 : ℕ) : ℚ) ((512 : ℕ) : ℚ)
          ((384 : ℕ) : ℚ)).2 : ℤ) : ℚ) - h| ≤ 1 / 2 :=
  targetSize_bounds_aspect 3000 2000 512 384 (by norm_num) (by norm_num)
    (by norm_num) (by norm_num)

theorem calcTarget_within (ow oh mw mh : ℕ) (how : 0 < ow) (hoh : 0 < oh)
    (h1 : ow ≤ mw) (h2 : oh ≤ mh) :
    calculateTargetSize ow oh mw mh = ((ow : ℤ), (oh : ℤ)) := by
  have how2 : (0 : ℚ) < ow := by exact_mod_cast how
  have hoh2 : (0 : ℚ) < oh := by exact_mod_cast hoh
  have hoh0 : (oh : ℚ) ≠ 0 := ne_of_gt hoh2
  have how0 : (ow : ℚ) ≠ 0 := ne_of_gt how2
  have hmin1 : min (mw : ℚ) (ow : ℚ) = (ow : ℚ) :=
    min_eq_right (by exact_mod_cast h1)
  have hmin2 : min (mh : ℚ) (oh : ℚ) = (oh : ℚ) :=
    min_eq_right (by exact_mod_cast h2)
  have hq1 : (ow : ℚ) / ((ow : ℚ) / (oh : ℚ)) = (oh : ℚ) := by
    rw [div_div_eq_mul_div]
    exact mul_div_cancel_left₀ _ how0
  have hq2 : (oh : ℚ) * ((ow : ℚ) / (oh : ℚ)) = (ow : ℚ) := by
    field_simp
  unfold calculateTargetSize
  dsimp only
  split_ifs with ha hb
  · exfalso
    rw [hmin1, hq1] at hb
    have hcon : mh < oh := by exact_mod_cast hb
    omega
  · rw [hmin1, hq1, jsRound_natCast, jsRound_natCast]
  · rename_i hb
    exfalso
    rw [hmin2, hq2] at hb
    have hcon : mw < ow := by exact_mod_cast hb
    omega
  · rw [hmin2, hq2, jsRound_natCast, jsRound_natCast]

/-- Claim C7: an image whose dimensions already fit within the preset
bounds is never upscaled: the computed target dimensions do not exceed
the original dimensions (in fact they equal them). -/
theorem no_upscale_within_bounds (ow oh mw mh : ℕ) (how : 0 < ow)
    (hoh : 0 < oh) (h1 : ow ≤ mw) (h2 : oh ≤ mh) :
    (calculateTargetSize ow oh mw mh).1 ≤ (ow : ℤ) ∧
    (calculateTargetSize ow oh mw mh).2 ≤ (oh : ℤ) := by
  rw [calcTarget_within ow oh mw mh how hoh h1 h2]
  exact ⟨le_refl _, le_refl _⟩

/-- Witness for claim C7: a 400 by 300 source under the balanced preset
bounds 512 by 384 is not upscaled. -/
theorem no_upscale_within_bounds_witness :
    (calculateTargetSize ((400 : ℕ) : ℚ) ((300 : ℕ) : ℚ) ((512 : ℕ) : ℚ)
        ((384 : ℕ) : ℚ)).1 ≤ ((400 : ℕ) : ℤ) ∧
    (calculateTargetSize ((400 : ℕ) : ℚ) ((300 : ℕ) : ℚ) ((512 : ℕ) : ℚ)
        ((384 : ℕ) : ℚ)).2 ≤ ((300 : ℕ) : ℤ) :=
  no_upscale_within_bounds 400 300 512 384 (by norm_num) (by norm_num)
    (by norm_num) (by norm_num)
